import Mathlib

/-!
Verification of the Mini-Pascal lexical analyzer (`lexer.py`).

The development shallowly embeds the tokenization core of the program:
the vocabulary (`operators`, `reserved_words`), the ordered rule table
(`rules_arr`), and the scanning loop (`Lexer.analyze`).  Source text is
modelled as `List Char`; the regular expressions appearing in the rule
table are each embedded by a matcher computing exactly what the Python
pattern matches at a given start position (all of the patterns are
either escaped literals or character-class patterns with no
backtracking across a committed class run).

Python's `\s` also matches some rare non-ASCII whitespace; the model
uses the ASCII whitespace characters (space, tab, newline, carriage
return, vertical tab, form feed), which is exact on ASCII source text.
The `filename` field of the Python `Output` dataclass (derived from the
file path, not from scanning) is presentation glue and is omitted from
the embedded `Output`.
-/

namespace MiniPascal

/-! ### Character classes (from the regex fragments `letter`, `digit`, `\s`) -/

/-- The class `[a-zA-Z]` (regex fragment `letter` in `lexer.py`). -/
def isLetter (c : Char) : Bool :=
  ('a' ≤ c && c ≤ 'z') || ('A' ≤ c && c ≤ 'Z')

/-- The class `[0-9]` (regex fragment `digit` in `lexer.py`). -/
def isDigit (c : Char) : Bool :=
  '0' ≤ c && c ≤ '9'

/-- The class `[a-zA-Z0-9]` (regex fragment `letter_or_digit`). -/
def isLetterOrDigit (c : Char) : Bool :=
  isLetter c || isDigit c

/-- The regex class `\s`, restricted to ASCII whitespace. -/
def isSpaceCh (c : Char) : Bool :=
  c == ' ' || c == '\t' || c == '\n' || c == '\r' ||
  c == '\x0b' || c == '\x0c'

/-- ASCII upper-casing of a character, as Python's `str.upper()` acts on
the (all lower-case ASCII) reserved words. -/
def pyUpperChar (c : Char) : Char :=
  if 'a' ≤ c && c ≤ 'z' then Char.ofNat (c.toNat - 32) else c

/-- Python's `str.upper()` on ASCII strings (used as `word.upper()` when
building the reserved-word rules). -/
def pyUpper (s : String) : String :=
  ⟨s.data.map pyUpperChar⟩

/-! ### Patterns

Every regex compiled in `lexer.py` is one of: an escaped literal
(operators, via `re.escape`), a bare literal word (reserved words), the
character-constant alternation, `[0-9]+`, `[a-zA-Z][a-zA-Z0-9]*`, or
`\s+`.  `Pat` enumerates these shapes and `matchPat` computes, for a
pattern and the text from the scan position onward, the lexeme the
Python `regex.match(line, pos=column)` call would return. -/

inductive Pat where
  | lit (s : List Char)
  | charconst
  | intconst
  | ident
  | space
deriving DecidableEq, Repr

/-- Literal match: does `s` occur verbatim at the start of `cs`? -/
def litMatch : List Char → List Char → Bool
  | [], _ => true
  | _ :: _, [] => false
  | a :: s, c :: cs => a == c && litMatch s cs

/-- The branch `\"[a-zA-Z0-9\s]+\"` of the CHARCONST regex: a double
quote, a nonempty greedy run of alphanumeric/whitespace characters, and
a closing double quote.  (The class cannot consume `\"`, so the greedy
run never needs to backtrack.) -/
def matchDquote (cs : List Char) : Option (List Char) :=
  match cs with
  | a :: rest =>
    if a = '"' then
      let run := rest.takeWhile (fun ch => isLetterOrDigit ch || isSpaceCh ch)
      if run.isEmpty then none
      else
        match rest.dropWhile (fun ch => isLetterOrDigit ch || isSpaceCh ch) with
        | b :: _ => if b = '"' then some (a :: (run ++ [b])) else none
        | [] => none
    else none
  | [] => none

/-- The CHARCONST regex `\'[a-zA-Z0-9]\'|\"[a-zA-Z0-9\s]+\"`: first the
single-quote branch, then the double-quote branch. -/
def matchCharconst (cs : List Char) : Option (List Char) :=
  match cs with
  | a :: b :: d :: _ =>
    if a = '\'' ∧ d = '\'' ∧ isLetterOrDigit b then some [a, b, d]
    else matchDquote cs
  | _ => matchDquote cs

/-- What `rule.regex.match(line, pos=column)` returns on the text from
the scan position on: `none` for no match, `some lexeme` otherwise. -/
def matchPat : Pat → List Char → Option (List Char)
  | .lit s, cs => if litMatch s cs then some s else none
  | .charconst, cs => matchCharconst cs
  | .intconst, cs =>
    let run := cs.takeWhile isDigit
    if run.isEmpty then none else some run
  | .ident, cs =>
    match cs with
    | c :: rest => if isLetter c then some (c :: rest.takeWhile isLetterOrDigit) else none
    | [] => none
  | .space, cs =>
    let run := cs.takeWhile isSpaceCh
    if run.isEmpty then none else some run

/-! ### Data model (`Rule`, `Pos`, `Token`, `Output` of `lexer.py`) -/

/-- A lexical rule: `symbol` (name), `type` (Backus-Naur group), and the
pattern (the compiled regex of the source). -/
structure Rule where
  symbol : String
  type : String
  pat : Pat
deriving DecidableEq, Repr

/-- A position: 1-based line and column. -/
structure Pos where
  lin : Nat
  col : Nat
deriving DecidableEq, Repr

/-- A token: lexeme, position, and the rule that recognized it;
`rule = none` marks a lexical error. -/
structure Token where
  lexeme : List Char
  pos : Pos
  rule : Option Rule
deriving DecidableEq, Repr

/-- The analyzer's output (the Python `Output` dataclass without its
`filename` presentation field). -/
structure Output where
  line_count : Nat
  largest_lexeme_size : Nat
  largest_column_size : Nat
  largest_type_size : Nat
  largest_group_size : Nat
  tokens : List Token
deriving DecidableEq, Repr

/-! ### The vocabulary and the rule table -/

/-- The `operators` list of `lexer.py`, in its exact order. -/
def operators : List (String × String) := [
  ("+", "PLUS"),
  ("-", "MINUS"),
  ("*", "TIMES"),
  ("=", "EQOP"),
  ("<>", "NEOP"),
  ("<", "LTOP"),
  ("<=", "LEOP"),
  (">=", "GEOP"),
  (">", "GTOP"),
  ("(", "LEFTPARENT"),
  (")", "RIGHTPARENT"),
  ("[", "LEFTBRACKET"),
  ("]", "RIGHTBRACKET"),
  (":=", "BECOMES"),
  (".", "PERIOD"),
  (",", "COMMA"),
  (";", "SEMICOLON"),
  (":", "COLON"),
  ("..", "THRU")
]

/-- The `reserved_words` list of `lexer.py`, in its exact order. -/
def reserved_words : List String := [
  "div", "or", "and", "not", "if", "then", "else", "of", "while", "do",
  "begin", "end", "read", "write", "var", "array", "function",
  "procedure", "program", "true", "false", "char", "integer", "boolean"
]

/-- The operator rules (first splat of `rules_arr`). -/
def opRules : List Rule :=
  operators.map (fun p => ⟨p.2, "<special symbol>", Pat.lit p.1.data⟩)

/-- The reserved-word rules (second splat of `rules_arr`). -/
def rwRules : List Rule :=
  reserved_words.map (fun w => ⟨pyUpper w, "<special symbol>", Pat.lit w.data⟩)

/-- The CHARCONST rule. -/
def charconstRule : Rule := ⟨"CHARCONST", "<character constant>", Pat.charconst⟩

/-- The INTCONST rule. -/
def intconstRule : Rule := ⟨"INTCONST", "<integer constant>", Pat.intconst⟩

/-- The IDENT rule. -/
def identRule : Rule := ⟨"IDENT", "<identifier>", Pat.ident⟩

/-- The SPACE rule. -/
def spaceRule : Rule := ⟨"SPACE", "<space>", Pat.space⟩

/-- The ordered rule table `rules_arr` of `lexer.py`. -/
def rules_arr : List Rule :=
  opRules ++ rwRules ++ [charconstRule, intconstRule, identRule, spaceRule]

/-! ### The scanning loop (`Lexer.analyze`) -/

/-- The `for rule in self.rules` loop body: the first rule of the table
(in order) whose regex matches at the scan position, with its lexeme. -/
def firstMatch (rules : List Rule) (cs : List Char) : Option (Rule × List Char) :=
  match rules with
  | [] => none
  | r :: rs =>
    match matchPat r.pat cs with
    | some lx => some (r, lx)
    | none => firstMatch rs cs

/-- The accumulator state of `analyze`: the four formatting maxima, the
error flag, and the token table. -/
structure ScanSt where
  largest_lexeme_found_sz : Nat
  largest_column_pos : Nat
  largest_type_sz : Nat
  largest_group_sz : Nat
  error_found : Bool
  table : List Token
deriving DecidableEq, Repr

/-- One `if v > cur: cur = v` update of a formatting maximum. -/
def bump (a v : Nat) : Nat := if v > a then v else a

/-- The inner `while column < len(line) and not error_found` loop of
`analyze` for one line; `fuel` bounds the iteration count (every lexeme
of the actual rule table is nonempty, so `fuel = line length` is
exact).  `column` is the 0-based scan position and `cs` the rest of
the line from that position. -/
def scanLine (rules : List Rule) (lin : Nat) :
    Nat → Nat → List Char → ScanSt → ScanSt
  | _, _, [], st => st
  | 0, _, _ :: _, st => st
  | fuel + 1, column, c :: rest, st =>
    if st.error_found then st
    else
      match firstMatch rules (c :: rest) with
      | some (rule, lexeme) =>
        let st1 : ScanSt :=
          { st with
            largest_lexeme_found_sz := bump st.largest_lexeme_found_sz lexeme.length
            largest_column_pos := bump st.largest_column_pos (column + 1)
            largest_type_sz := bump st.largest_type_sz rule.type.length
            largest_group_sz := bump st.largest_group_sz rule.symbol.length }
        let st2 : ScanSt :=
          if rule.symbol ≠ "SPACE" then
            { st1 with table := st1.table ++ [⟨lexeme, ⟨lin, column + 1⟩, some rule⟩] }
          else st1
        scanLine rules lin fuel (column + lexeme.length)
          ((c :: rest).drop lexeme.length) st2
      | none =>
        { st with
          table := st.table ++ [⟨[c], ⟨lin, column + 1⟩, none⟩]
          error_found := true }

/-- The outer `for line_idx, line in enumerate(lines)` loop of
`analyze`. -/
def analyzeLines (rules : List Rule) : List (List Char) → Nat → ScanSt → ScanSt
  | [], _, st => st
  | line :: ls, line_idx, st =>
    analyzeLines rules ls (line_idx + 1)
      (scanLine rules (line_idx + 1) line.length 0 line st)

/-- The state at the start of `analyze` (all maxima 0, no error, empty
table). -/
def initSt : ScanSt := ⟨0, 0, 0, 0, false, []⟩

/-- Python's `source.split('\n')`: on the empty string it yields one
empty line, and a trailing separator yields a trailing empty line. -/
def splitOnNl : List Char → List (List Char)
  | [] => [[]]
  | c :: cs =>
    if c = '\n' then [] :: splitOnNl cs
    else
      match splitOnNl cs with
      | l :: ls => (c :: l) :: ls
      | [] => [[c]]

/-- `Lexer.analyze` of `lexer.py`: split into lines, scan each line,
and package the line count, the four maxima, and the token table. -/
def analyze (rules : List Rule) (source : List Char) : Output :=
  let lines := splitOnNl source
  let st := analyzeLines rules lines 0 initSt
  ⟨lines.length, st.largest_lexeme_found_sz, st.largest_column_pos,
   st.largest_type_sz, st.largest_group_sz, st.table⟩

/-! ### A functional characterization of the scan

`lineScan` re-expresses the inner loop as a pure trace: the list of
successful matches `(rule, lexeme, 0-based column)` of one line in
order, together with the offending character and column if the line
ends in a lexical error.  `srcScan` strings the lines together,
stopping at the first error, exactly as the error flag does.  The
correspondence theorems (`scanLine_eq`, `analyzeLines_eq`,
`analyze_spec`) prove that `analyze` computes its table and its four
maxima from this trace. -/

/-- One successful match of the scan: rule, lexeme, 0-based column. -/
abbrev MatchRec := Rule × List Char × Nat

/-- Lexeme length of a match (feeds `largest_lexeme_found_sz`). -/
def mLex (m : MatchRec) : Nat := m.2.1.length

/-- 1-based column of a match (feeds `largest_column_pos`). -/
def mCol (m : MatchRec) : Nat := m.2.2 + 1

/-- Category-name length of a match (feeds `largest_type_sz`). -/
def mType (m : MatchRec) : Nat := m.1.type.length

/-- Symbol-name length of a match (feeds `largest_group_sz`). -/
def mGroup (m : MatchRec) : Nat := m.1.symbol.length

/-- Folding the `if v > cur` maximum updates over a list of values. -/
def bumpFold (a : Nat) (vs : List Nat) : Nat := vs.foldl bump a

/-- The trace of one line: successful matches in order, and the error
(character, 0-based column), if any. -/
def lineScan (rules : List Rule) :
    Nat → Nat → List Char → List MatchRec × Option (Char × Nat)
  | _, _, [] => ([], none)
  | 0, _, _ :: _ => ([], none)
  | fuel + 1, column, c :: rest =>
    match firstMatch rules (c :: rest) with
    | some (rule, lexeme) =>
      ((rule, lexeme, column) ::
        (lineScan rules fuel (column + lexeme.length) ((c :: rest).drop lexeme.length)).1,
       (lineScan rules fuel (column + lexeme.length) ((c :: rest).drop lexeme.length)).2)
    | none => ([], some (c, column))

/-- The tokens a line trace materializes: every non-SPACE match, as a
token with 1-based position. -/
def trTokens (lin : Nat) (tr : List MatchRec) : List Token :=
  (tr.filter (fun m => decide (m.1.symbol ≠ "SPACE"))).map
    (fun m => ⟨m.2.1, ⟨lin, m.2.2 + 1⟩, some m.1⟩)

/-- The error token of a line trace, if any. -/
def errTok (lin : Nat) : Option (Char × Nat) → List Token
  | none => []
  | some e => [⟨[e.1], ⟨lin, e.2 + 1⟩, none⟩]

/-- Applying a line trace to an accumulator state: fold the maxima
updates over the matches, append the materialized tokens and the error
token, and set the error flag. -/
def stApply (st : ScanSt) (lin : Nat)
    (p : List MatchRec × Option (Char × Nat)) : ScanSt :=
  { largest_lexeme_found_sz := bumpFold st.largest_lexeme_found_sz (p.1.map mLex)
    largest_column_pos := bumpFold st.largest_column_pos (p.1.map mCol)
    largest_type_sz := bumpFold st.largest_type_sz (p.1.map mType)
    largest_group_sz := bumpFold st.largest_group_sz (p.1.map mGroup)
    error_found := p.2.isSome
    table := st.table ++ trTokens lin p.1 ++ errTok lin p.2 }

theorem scanLine_eq (rules : List Rule) (lin : Nat) :
    ∀ (fuel column : Nat) (cs : List Char) (st : ScanSt),
    st.error_found = false →
    scanLine rules lin fuel column cs st
      = stApply st lin (lineScan rules fuel column cs) := by
  intro fuel
  induction fuel with
  | zero =>
    intro column cs st h
    cases cs with
    | nil =>
      cases st
      simp_all [scanLine, lineScan, stApply, bumpFold, trTokens, errTok]
    | cons c rest =>
      cases st
      simp_all [scanLine, lineScan, stApply, bumpFold, trTokens, errTok]
  | succ fuel ih =>
    intro column cs st h
    cases cs with
    | nil =>
      cases st
      simp_all [scanLine, lineScan, stApply, bumpFold, trTokens, errTok]
    | cons c rest =>
      rw [scanLine, lineScan]
      rcases hm : firstMatch rules (c :: rest) with _ | ⟨rule, lexeme⟩
      · cases st
        simp_all [stApply, bumpFold, trTokens, errTok]
      · simp only [h, Bool.false_eq_true, if_false]
        by_cases hsp : rule.symbol = "SPACE"
        · rw [ih]
          · cases st
            simp_all [stApply, bumpFold, trTokens, errTok, mLex, mCol, mType, mGroup,
              List.filter_cons, List.append_assoc]
          · simp [hsp, h]
        · rw [ih]
          · cases st
            simp_all [stApply, bumpFold, trTokens, errTok, mLex, mCol, mType, mGroup,
              List.filter_cons, List.append_assoc]
          · simp [hsp, h]

theorem scanLine_err (rules : List Rule) (lin : Nat) :
    ∀ (fuel column : Nat) (cs : List Char) (st : ScanSt),
    st.error_found = true → scanLine rules lin fuel column cs st = st := by
  intro fuel
  cases fuel <;> intro column cs st h <;> cases cs <;> simp [scanLine, h]

theorem analyzeLines_err (rules : List Rule) :
    ∀ (lines : List (List Char)) (idx : Nat) (st : ScanSt),
    st.error_found = true → analyzeLines rules lines idx st = st := by
  intro lines
  induction lines with
  | nil => intro idx st h; rfl
  | cons l ls ih =>
    intro idx st h
    rw [analyzeLines, scanLine_err _ _ _ _ _ _ h, ih _ _ h]

/-- The trace of a whole source: the per-line traces (tagged with their
1-based line numbers) of every line up to and including the erroring
one, and the error (character, line, 0-based column), if any. -/
def srcScan (rules : List Rule) :
    List (List Char) → Nat →
    List (Nat × List MatchRec) × Option (Char × Nat × Nat)
  | [], _ => ([], none)
  | l :: ls, line_idx =>
    match (lineScan rules l.length 0 l).2 with
    | some e =>
      ([(line_idx + 1, (lineScan rules l.length 0 l).1)],
       some (e.1, line_idx + 1, e.2))
    | none =>
      ((line_idx + 1, (lineScan rules l.length 0 l).1) :: (srcScan rules ls (line_idx + 1)).1,
       (srcScan rules ls (line_idx + 1)).2)

/-- All tokens materialized by a source trace. -/
def srcTokens (trs : List (Nat × List MatchRec)) : List Token :=
  trs.flatMap (fun p => trTokens p.1 p.2)

/-- All successful matches of a source trace, in scan order. -/
def allMatches (trs : List (Nat × List MatchRec)) : List MatchRec :=
  trs.flatMap (fun p => p.2)

/-- The error token of a source trace, if any. -/
def errTok2 : Option (Char × Nat × Nat) → List Token
  | none => []
  | some e => [⟨[e.1], ⟨e.2.1, e.2.2 + 1⟩, none⟩]

/-- Applying a source trace to an accumulator state. -/
def stApplySrc (st : ScanSt)
    (q : List (Nat × List MatchRec) × Option (Char × Nat × Nat)) : ScanSt :=
  { largest_lexeme_found_sz := bumpFold st.largest_lexeme_found_sz ((allMatches q.1).map mLex)
    largest_column_pos := bumpFold st.largest_column_pos ((allMatches q.1).map mCol)
    largest_type_sz := bumpFold st.largest_type_sz ((allMatches q.1).map mType)
    largest_group_sz := bumpFold st.largest_group_sz ((allMatches q.1).map mGroup)
    error_found := q.2.isSome
    table := st.table ++ srcTokens q.1 ++ errTok2 q.2 }

theorem analyzeLines_eq (rules : List Rule) :
    ∀ (lines : List (List Char)) (line_idx : Nat) (st : ScanSt),
    st.error_found = false →
    analyzeLines rules lines line_idx st
      = stApplySrc st (srcScan rules lines line_idx) := by
  intro lines
  induction lines with
  | nil =>
    intro line_idx st h
    cases st
    simp_all [analyzeLines, srcScan, stApplySrc, allMatches, srcTokens, errTok2, bumpFold]
  | cons l ls ih =>
    intro line_idx st h
    rw [analyzeLines, srcScan, scanLine_eq rules _ _ _ _ _ h]
    rcases he : (lineScan rules l.length 0 l).2 with _ | e
    · have h2 : (stApply st (line_idx + 1) (lineScan rules l.length 0 l)).error_found = false := by
        simp [stApply, he]
      rw [ih _ _ h2]
      simp only [he]
      simp [stApplySrc, stApply, allMatches, srcTokens, errTok, errTok2, bumpFold, he,
        List.foldl_append, List.append_assoc, List.flatMap_cons]
    · have h2 : (stApply st (line_idx + 1) (lineScan rules l.length 0 l)).error_found = true := by
        simp [stApply, he]
      rw [analyzeLines_err _ _ _ _ h2]
      simp only [he]
      simp [stApplySrc, stApply, allMatches, srcTokens, errTok, errTok2, bumpFold, he,
        List.append_assoc, List.flatMap_cons]

/-- `analyze` computes the line count, the maxima as folds over the
successful matches of the source trace, and the token table as the
materialized non-SPACE matches followed by the error token (if any). -/
theorem analyze_spec (rules : List Rule) (source : List Char) :
    analyze rules source =
      { line_count := (splitOnNl source).length
        largest_lexeme_size :=
          bumpFold 0 ((allMatches (srcScan rules (splitOnNl source) 0).1).map mLex)
        largest_column_size :=
          bumpFold 0 ((allMatches (srcScan rules (splitOnNl source) 0).1).map mCol)
        largest_type_size :=
          bumpFold 0 ((allMatches (srcScan rules (splitOnNl source) 0).1).map mType)
        largest_group_size :=
          bumpFold 0 ((allMatches (srcScan rules (splitOnNl source) 0).1).map mGroup)
        tokens := srcTokens (srcScan rules (splitOnNl source) 0).1
          ++ errTok2 (srcScan rules (splitOnNl source) 0).2 } := by
  rw [analyze, analyzeLines_eq rules _ 0 initSt rfl]
  simp [stApplySrc, initSt]

/-! ### Every match is a nonempty prefix of the scanned text -/

theorem litMatch_eq_true : ∀ (s cs : List Char), litMatch s cs = true → ∃ t, cs = s ++ t := by
  intro s
  induction s with
  | nil => intro cs _; exact ⟨cs, rfl⟩
  | cons a s ih =>
    intro cs h
    cases cs with
    | nil => simp [litMatch] at h
    | cons c rest =>
      simp only [litMatch, Bool.and_eq_true, beq_iff_eq] at h
      obtain ⟨t, ht⟩ := ih rest h.2
      exact ⟨t, by simp [h.1, ht]⟩

theorem matchDquote_prefix (cs lx : List Char) (h : matchDquote cs = some lx) :
    ∃ t, cs = lx ++ t := by
  cases cs with
  | nil => simp [matchDquote] at h
  | cons a rest =>
    simp only [matchDquote] at h
    split at h
    · split at h
      · exact absurd h (by simp)
      · split at h
        · rename_i b tl hdw
          split at h
          · obtain rfl := Option.some.inj h
            refine ⟨tl, ?_⟩
            have hsplit := List.takeWhile_append_dropWhile
              (fun ch => isLetterOrDigit ch || isSpaceCh ch) rest
            rw [hdw] at hsplit
            conv_lhs => rw [← hsplit]
            simp [List.append_assoc]
          · exact absurd h (by simp)
        · exact absurd h (by simp)
    · exact absurd h (by simp)

theorem matchCharconst_prefix (cs lx : List Char) (h : matchCharconst cs = some lx) :
    ∃ t, cs = lx ++ t := by
  cases cs with
  | nil => exact matchDquote_prefix _ _ h
  | cons a rest =>
    cases rest with
    | nil => exact matchDquote_prefix _ _ h
    | cons b rest2 =>
      cases rest2 with
      | nil => exact matchDquote_prefix _ _ h
      | cons d tl =>
        simp only [matchCharconst] at h
        split at h
        · obtain rfl := Option.some.inj h
          exact ⟨tl, rfl⟩
        · exact matchDquote_prefix _ _ h

theorem matchPat_prefix (p : Pat) (cs lx : List Char) (h : matchPat p cs = some lx) :
    ∃ t, cs = lx ++ t := by
  cases p with
  | lit s =>
    simp only [matchPat] at h
    split at h
    · obtain rfl := Option.some.inj h
      exact litMatch_eq_true _ _ (by assumption)
    · exact absurd h (by simp)
  | charconst => exact matchCharconst_prefix _ _ h
  | intconst =>
    simp only [matchPat] at h
    split at h
    · exact absurd h (by simp)
    · obtain rfl := Option.some.inj h
      exact ⟨cs.dropWhile isDigit, (List.takeWhile_append_dropWhile isDigit cs).symm⟩
  | ident =>
    cases cs with
    | nil => simp [matchPat] at h
    | cons c rest =>
      simp only [matchPat] at h
      split at h
      · obtain rfl := Option.some.inj h
        exact ⟨rest.dropWhile isLetterOrDigit,
          by simp [List.takeWhile_append_dropWhile]⟩
      · exact absurd h (by simp)
  | space =>
    simp only [matchPat] at h
    split at h
    · exact absurd h (by simp)
    · obtain rfl := Option.some.inj h
      exact ⟨cs.dropWhile isSpaceCh, (List.takeWhile_append_dropWhile isSpaceCh cs).symm⟩

/-- A pattern is well formed when it cannot match the empty lexeme;
for the shapes of `Pat` this only excludes an empty literal. -/
def patWf : Pat → Bool
  | .lit s => !s.isEmpty
  | _ => true

theorem matchPat_ne_nil (p : Pat) (cs lx : List Char)
    (hwf : patWf p = true) (h : matchPat p cs = some lx) : lx ≠ [] := by
  cases p with
  | lit s =>
    simp only [matchPat] at h
    split at h
    · obtain rfl := Option.some.inj h
      simpa [patWf] using hwf
    · exact absurd h (by simp)
  | charconst =>
    simp only [matchPat] at h
    have hdq : ∀ cs' lx', matchDquote cs' = some lx' → lx' ≠ [] := by
      intro cs' lx' h'
      cases cs' with
      | nil => simp [matchDquote] at h'
      | cons a rest =>
        simp only [matchDquote] at h'
        split at h'
        · split at h'
          · exact absurd h' (by simp)
          · split at h'
            · split at h'
              · obtain rfl := Option.some.inj h'
                simp
              · exact absurd h' (by simp)
            · exact absurd h' (by simp)
        · exact absurd h' (by simp)
    cases cs with
    | nil => exact hdq [] lx h
    | cons a rest =>
      cases rest with
      | nil => exact hdq [a] lx h
      | cons b rest2 =>
        cases rest2 with
        | nil => exact hdq [a, b] lx h
        | cons d tl =>
          simp only [matchCharconst] at h
          split at h
          · obtain rfl := Option.some.inj h
            simp
          · exact hdq _ _ h
  | intconst =>
    simp only [matchPat] at h
    split at h
    · exact absurd h (by simp)
    · obtain rfl := Option.some.inj h
      simpa [List.isEmpty_iff] using (by assumption : (cs.takeWhile isDigit).isEmpty ≠ true)
  | ident =>
    cases cs with
    | nil => simp [matchPat] at h
    | cons c rest =>
      simp only [matchPat] at h
      split at h
      · obtain rfl := Option.some.inj h
        simp
      · exact absurd h (by simp)
  | space =>
    simp only [matchPat] at h
    split at h
    · exact absurd h (by simp)
    · obtain rfl := Option.some.inj h
      simpa [List.isEmpty_iff] using (by assumption : (cs.takeWhile isSpaceCh).isEmpty ≠ true)

theorem firstMatch_some :
    ∀ (rules : List Rule) (cs : List Char) (r : Rule) (lx : List Char),
    firstMatch rules cs = some (r, lx) → r ∈ rules ∧ matchPat r.pat cs = some lx := by
  intro rules
  induction rules with
  | nil => intro cs r lx h; simp [firstMatch] at h
  | cons r0 rs ih =>
    intro cs r lx h
    simp only [firstMatch] at h
    rcases hm : matchPat r0.pat cs with _ | lx0
    · rw [hm] at h
      obtain ⟨h1, h2⟩ := ih cs r lx h
      exact ⟨List.mem_cons_of_mem _ h1, h2⟩
    · rw [hm] at h
      simp only [Option.some.injEq, Prod.mk.injEq] at h
      obtain ⟨rfl, rfl⟩ := h
      exact ⟨List.mem_cons_self _ _, hm⟩

theorem rules_arr_wf : ∀ r ∈ rules_arr, patWf r.pat = true := by decide

/-! ### The round trip: an error-free line trace concatenates back to
the line -/

theorem lineScan_join (rules : List Rule) (hwf : ∀ r ∈ rules, patWf r.pat = true) :
    ∀ (fuel column : Nat) (cs : List Char), cs.length ≤ fuel →
    (lineScan rules fuel column cs).2 = none →
    ((lineScan rules fuel column cs).1.map (fun m => m.2.1)).flatten = cs := by
  intro fuel
  induction fuel with
  | zero =>
    intro column cs hlen _
    cases cs with
    | nil => simp [lineScan]
    | cons c rest => simp at hlen
  | succ fuel ih =>
    intro column cs hlen hnone
    cases cs with
    | nil => simp [lineScan]
    | cons c rest =>
      rw [lineScan] at hnone ⊢
      rcases hm : firstMatch rules (c :: rest) with _ | ⟨rule, lexeme⟩
      · rw [hm] at hnone; simp at hnone
      · rw [hm] at hnone
        dsimp only at hnone ⊢
        obtain ⟨hr, hmp⟩ := firstMatch_some _ _ _ _ hm
        obtain ⟨t, ht⟩ := matchPat_prefix _ _ _ hmp
        have hne : lexeme ≠ [] := matchPat_ne_nil _ _ _ (hwf rule hr) hmp
        have hdrop : (c :: rest).drop lexeme.length = t := by
          rw [ht, List.drop_left]
        have hlt : t.length ≤ fuel := by
          have h1 : (c :: rest).length = lexeme.length + t.length := by
            rw [ht, List.length_append]
          have h2 : 0 < lexeme.length := List.length_pos.mpr hne
          omega
        simp only [List.map_cons, List.flatten_cons]
        rw [hdrop] at hnone ⊢
        rw [ih _ t hlt hnone, ht]

/-! ### Error-free source traces and the shape of the token table -/

theorem srcScan_none (rules : List Rule) :
    ∀ (lines : List (List Char)) (idx : Nat),
    (srcScan rules lines idx).2 = none →
    (∀ l ∈ lines, (lineScan rules l.length 0 l).2 = none) ∧
    (srcScan rules lines idx).1
      = (lines.enumFrom idx).map
          (fun p => (p.1 + 1, (lineScan rules p.2.length 0 p.2).1)) := by
  intro lines
  induction lines with
  | nil => intro idx _; simp [srcScan]
  | cons l ls ih =>
    intro idx h
    rw [srcScan] at h ⊢
    rcases he : (lineScan rules l.length 0 l).2 with _ | e
    · rw [he] at h
      dsimp only at h ⊢
      obtain ⟨h1, h2⟩ := ih (idx + 1) h
      refine ⟨?_, ?_⟩
      · intro l' hl'
        rcases hl' with _ | hl'
        · exact he
        · exact h1 _ (by assumption)
      · simp [List.enumFrom_cons, h2]
    · rw [he] at h
      simp at h

theorem mem_trTokens (lin : Nat) (tr : List MatchRec) (t : Token)
    (h : t ∈ trTokens lin tr) :
    ∃ r, t.rule = some r ∧ r.symbol ≠ "SPACE" := by
  simp only [trTokens, List.mem_map, List.mem_filter] at h
  obtain ⟨m, ⟨_, hm⟩, rfl⟩ := h
  exact ⟨m.1, rfl, by simpa using hm⟩

theorem mem_srcTokens (trs : List (Nat × List MatchRec)) (t : Token)
    (h : t ∈ srcTokens trs) :
    ∃ r, t.rule = some r ∧ r.symbol ≠ "SPACE" := by
  simp only [srcTokens, List.mem_flatMap] at h
  obtain ⟨p, _, hp⟩ := h
  exact mem_trTokens _ _ _ hp

/-- In a list of the form `A ++ [b]` where every element of `A`
satisfies `P` and some occurrence `t` fails `P`, that occurrence is the
final one. -/
theorem last_only {α : Type} {P : α → Prop} :
    ∀ (pre : List α) (A post : List α) (t b : α), (∀ a ∈ A, P a) → ¬ P t →
    pre ++ t :: post = A ++ [b] → post = [] ∧ pre = A := by
  intro pre
  induction pre with
  | nil =>
    intro A post t b hA ht heq
    cases A with
    | nil =>
      simp only [List.nil_append, List.cons.injEq] at heq
      exact ⟨heq.2, rfl⟩
    | cons a A' =>
      simp only [List.nil_append, List.cons_append, List.cons.injEq] at heq
      obtain ⟨rfl, -⟩ := heq
      exact absurd (hA t (List.mem_cons_self _ _)) ht
  | cons p pre' ih =>
    intro A post t b hA ht heq
    cases A with
    | nil =>
      simp only [List.cons_append, List.nil_append, List.cons.injEq] at heq
      obtain ⟨rfl, h2⟩ := heq
      exact absurd (List.append_eq_nil.mp h2).2 (by simp)
    | cons a A' =>
      simp only [List.cons_append, List.cons.injEq] at heq
      obtain ⟨rfl, h2⟩ := heq
      obtain ⟨hpost, hpre⟩ := ih A' post t b (fun x hx => hA x (List.mem_cons_of_mem _ hx)) ht h2
      exact ⟨hpost, by rw [hpre]⟩

/-! ### Scanning whitespace: only the SPACE rule can fire -/

/-- Whether a pattern can possibly match a text whose first character
is `c`. -/
def headOk : Pat → Char → Bool
  | .lit [], _ => true
  | .lit (a :: _), c => a == c
  | .charconst, c => c == '\'' || c == '"'
  | .intconst, c => isDigit c
  | .ident, c => isLetter c
  | .space, c => isSpaceCh c

theorem matchPat_headOk (p : Pat) (c : Char) (cs : List Char)
    (h : headOk p c = false) : matchPat p (c :: cs) = none := by
  cases p with
  | lit s =>
    cases s with
    | nil => simp [headOk] at h
    | cons a s' =>
      simp only [headOk, beq_eq_false_iff_ne, ne_eq] at h
      simp [matchPat, litMatch, h]
  | charconst =>
    simp only [headOk, Bool.or_eq_false_iff, beq_eq_false_iff_ne, ne_eq] at h
    obtain ⟨h1, h2⟩ := h
    have hdq : matchDquote (c :: cs) = none := by
      simp [matchDquote, h2]
    cases cs with
    | nil => simp only [matchPat, matchCharconst]; exact hdq
    | cons b rest2 =>
      cases rest2 with
      | nil => simp only [matchPat, matchCharconst]; exact hdq
      | cons d tl =>
        simp only [matchPat, matchCharconst]
        rw [if_neg]
        · exact hdq
        · rintro ⟨hc, -⟩
          exact h1 hc
  | intconst =>
    simp only [headOk] at h
    simp [matchPat, List.takeWhile_cons, h]
  | ident =>
    simp only [headOk] at h
    simp [matchPat, h]
  | space =>
    simp only [headOk] at h
    simp [matchPat, List.takeWhile_cons, h]

theorem firstMatch_skip :
    ∀ (rules₁ rules₂ : List Rule) (c : Char) (cs : List Char),
    (∀ r ∈ rules₁, headOk r.pat c = false) →
    firstMatch (rules₁ ++ rules₂) (c :: cs) = firstMatch rules₂ (c :: cs) := by
  intro rules₁
  induction rules₁ with
  | nil => intro rules₂ c cs _; rfl
  | cons r rs ih =>
    intro rules₂ c cs hall
    have h0 := matchPat_headOk r.pat c cs (hall r (List.mem_cons_self _ _))
    simp only [List.cons_append, firstMatch, h0]
    exact ih _ _ _ (fun x hx => hall x (List.mem_cons_of_mem _ hx))

/-- The rule table with its final SPACE rule split off. -/
theorem rules_arr_split :
    rules_arr = (opRules ++ rwRules ++ [charconstRule, intconstRule, identRule])
      ++ [spaceRule] := by
  simp [rules_arr, List.append_assoc]

theorem headOk_space_front (c : Char) (hc : isSpaceCh c = true) :
    ∀ r ∈ opRules ++ rwRules ++ [charconstRule, intconstRule, identRule],
    headOk r.pat c = false := by
  have hcases : ((((c = ' ' ∨ c = '\t') ∨ c = '\n') ∨ c = '\r') ∨ c = '\x0b') ∨ c = '\x0c' := by
    simpa [isSpaceCh] using hc
  rcases hcases with ((((rfl | rfl) | rfl) | rfl) | rfl) | rfl <;> decide

theorem firstMatch_space (c : Char) (rest : List Char) (hc : isSpaceCh c = true) :
    firstMatch rules_arr (c :: rest)
      = some (spaceRule, c :: rest.takeWhile isSpaceCh) := by
  rw [rules_arr_split, firstMatch_skip _ _ _ _ (headOk_space_front c hc)]
  simp [firstMatch, matchPat, spaceRule, List.takeWhile_cons, hc]

theorem takeWhile_all {α : Type} (p : α → Bool) :
    ∀ l : List α, (∀ x ∈ l, p x = true) → l.takeWhile p = l := by
  intro l
  induction l with
  | nil => intro _; rfl
  | cons a l ih =>
    intro h
    rw [List.takeWhile_cons, h a (List.mem_cons_self _ _), if_pos rfl,
      ih (fun x hx => h x (List.mem_cons_of_mem _ hx))]

theorem lineScan_space (l : List Char) (hl : ∀ ch ∈ l, isSpaceCh ch = true) :
    (lineScan rules_arr l.length 0 l).2 = none ∧
    ∀ lin, trTokens lin (lineScan rules_arr l.length 0 l).1 = [] := by
  cases l with
  | nil => exact ⟨rfl, fun _ => rfl⟩
  | cons c rest =>
    have hc := hl c (List.mem_cons_self _ _)
    have htw : rest.takeWhile isSpaceCh = rest :=
      takeWhile_all _ _ (fun x hx => hl x (List.mem_cons_of_mem _ hx))
    simp only [List.length_cons]
    rw [lineScan, firstMatch_space c rest hc]
    dsimp only
    rw [htw]
    have hdrop : (c :: rest).drop (c :: rest).length = [] := List.drop_length _
    have hlen : (c :: rest).length = rest.length + 1 := rfl
    rw [show (0 + (c :: rest).length) = (c :: rest).length by omega] at *
    rw [hdrop]
    constructor
    · cases rest <;> simp [lineScan]
    · intro lin
      cases rest <;> simp [lineScan, trTokens, spaceRule]

theorem srcScan_space :
    ∀ (lines : List (List Char)) (idx : Nat),
    (∀ l ∈ lines, ∀ ch ∈ l, isSpaceCh ch = true) →
    srcTokens (srcScan rules_arr lines idx).1 = [] ∧
    (srcScan rules_arr lines idx).2 = none := by
  intro lines
  induction lines with
  | nil => intro idx _; exact ⟨rfl, rfl⟩
  | cons l ls ih =>
    intro idx hall
    obtain ⟨he, htr⟩ := lineScan_space l (hall l (List.mem_cons_self _ _))
    obtain ⟨ih1, ih2⟩ := ih (idx + 1) (fun x hx => hall x (List.mem_cons_of_mem _ hx))
    rw [srcScan, he]
    dsimp only
    refine ⟨?_, ih2⟩
    simp only [srcTokens, List.flatMap_cons] at ih1 ⊢
    rw [htr (idx + 1), ih1]
    rfl

/-! ### Lines only contain characters of the source -/

theorem splitOnNl_ne_nil : ∀ cs : List Char, splitOnNl cs ≠ [] := by
  intro cs
  induction cs with
  | nil => simp [splitOnNl]
  | cons c cs ih =>
    rw [splitOnNl]
    split
    · simp
    · split
      · simp
      · simp

theorem mem_splitOnNl :
    ∀ (cs l : List Char), l ∈ splitOnNl cs → ∀ ch ∈ l, ch ∈ cs := by
  intro cs
  induction cs with
  | nil =>
    intro l hl ch hch
    simp only [splitOnNl, List.mem_singleton] at hl
    subst hl
    simp at hch
  | cons c cs ih =>
    intro l hl ch hch
    rw [splitOnNl] at hl
    by_cases hc : c = '\n'
    · rw [if_pos hc] at hl
      rcases List.mem_cons.mp hl with rfl | hl
      · simp at hch
      · exact List.mem_cons_of_mem _ (ih l hl ch hch)
    · rw [if_neg hc] at hl
      rcases hsp : splitOnNl cs with _ | ⟨m, ms⟩
      · exact absurd hsp (splitOnNl_ne_nil cs)
      · rw [hsp] at hl
        rcases List.mem_cons.mp hl with rfl | hl
        · rcases List.mem_cons.mp hch with rfl | hch
          · exact List.mem_cons_self _ _
          · refine List.mem_cons_of_mem _ (ih m ?_ ch hch)
            rw [hsp]
            exact List.mem_cons_self _ _
        · refine List.mem_cons_of_mem _ (ih l ?_ ch hch)
          rw [hsp]
          exact List.mem_cons_of_mem _ hl

/-! ### Remaining support for the claims -/

theorem srcScan_err_none_of_no_err_token (src : List Char)
    (h : ∀ t ∈ (analyze rules_arr src).tokens, t.rule ≠ none) :
    (srcScan rules_arr (splitOnNl src) 0).2 = none := by
  rcases he : (srcScan rules_arr (splitOnNl src) 0).2 with _ | e
  · rfl
  · exfalso
    have hmem : (⟨[e.1], ⟨e.2.1, e.2.2 + 1⟩, none⟩ : Token) ∈ (analyze rules_arr src).tokens := by
      rw [analyze_spec]
      dsimp only
      rw [he]
      simp [errTok2]
    exact h _ hmem rfl

/-- The full match trace (tokens and whitespace spans alike) of one
line, scanned on its own with exactly as much fuel as the line is
long — the same call the source trace makes for each line. -/
def lineMatches (l : List Char) : List MatchRec :=
  (lineScan rules_arr l.length 0 l).1

/-- Two successive calls of `analyze` on the same arguments, as a
pair. -/
def analyzeTwice (rules : List Rule) (source : List Char) : Output × Output :=
  (analyze rules source, analyze rules source)

/-! ### The claims -/

/-- Claim C1: the claim states that in `rules_arr` every
multi-character operator rule precedes every single-character operator
rule whose literal is a prefix of it, naming `<=`/`<>` before `<` and
`..` before `.`.  The table as constructed violates this: the `<` rule
(LTOP) precedes the `<=` rule (LEOP) and the `.` rule (PERIOD) precedes
the `..` rule (THRU), so the input `"<="` scans as LTOP then EQOP (never
LEOP) and `".."` scans as PERIOD twice (never THRU).  Only the `:=`
before `:` and `<>` before `<` parts hold. -/
theorem claimC1 :
    ((rules_arr.map Rule.symbol).indexOf "LTOP" < (rules_arr.map Rule.symbol).indexOf "LEOP"
      ∧ (rules_arr.map Rule.symbol).indexOf "PERIOD" < (rules_arr.map Rule.symbol).indexOf "THRU")
    ∧ ((analyze rules_arr ("<=".data)).tokens.map (fun t => (t.lexeme, t.rule.map Rule.symbol)))
        = [(['<'], some "LTOP"), (['='], some "EQOP")]
    ∧ ((analyze rules_arr ("..".data)).tokens.map (fun t => (t.lexeme, t.rule.map Rule.symbol)))
        = [(['.'], some "PERIOD"), (['.'], some "PERIOD")]
    ∧ ((rules_arr.map Rule.symbol).indexOf "BECOMES" < (rules_arr.map Rule.symbol).indexOf "COLON"
      ∧ (rules_arr.map Rule.symbol).indexOf "NEOP" < (rules_arr.map Rule.symbol).indexOf "LTOP") := by
  decide

/-- Claim C2 (counterexample): for the input `"x1 := 10"` the token
sequence returned by `analyze` has three elements, not four as the
claim states (whitespace matches are discarded, not emitted). -/
theorem counterC2 : ¬ ((analyze rules_arr ("x1 := 10".data)).tokens.length = 4) := by
  decide

/-- Claim C2 (amended): for the input `"x1 := 10"`, `analyze` returns
exactly three tokens, in order: the identifier `x1` at column 1, the
becomes-operator `:=` at column 4 and the integer constant `10` at
column 7, with no error token in the result. -/
theorem claimC2 :
    (analyze rules_arr ("x1 := 10".data)).tokens
      = [⟨"x1".data, ⟨1, 1⟩, some identRule⟩,
         ⟨":=".data, ⟨1, 4⟩, some ⟨"BECOMES", "<special symbol>", Pat.lit ":=".data⟩⟩,
         ⟨"10".data, ⟨1, 7⟩, some intconstRule⟩]
    ∧ (analyze rules_arr ("x1 := 10".data)).tokens.all (fun t => t.rule.isSome) = true := by
  decide

/-- Claim C3 (counterexample): for the input of two spaces no token is
emitted, yet the four maxima are 2 (the whitespace lexeme length), 1
(the whitespace match column), 7 (the length of `"<space>"`) and 5 (the
length of `"SPACE"`); in particular the largest-lexeme maximum differs
from the maximum lexeme length over the emitted tokens, which is 0. -/
theorem counterC3 :
    (analyze rules_arr ("  ".data)).tokens = []
    ∧ (analyze rules_arr ("  ".data)).largest_lexeme_size = 2
    ∧ (analyze rules_arr ("  ".data)).largest_column_size = 1
    ∧ (analyze rules_arr ("  ".data)).largest_type_size = 7
    ∧ (analyze rules_arr ("  ".data)).largest_group_size = 5
    ∧ ¬ ((analyze rules_arr ("  ".data)).largest_lexeme_size
        = ((analyze rules_arr ("  ".data)).tokens.map (fun t => t.lexeme.length)).foldr max 0) := by
  decide

/-- Claim C3 (amended): each of the four layout maxima is the maximum
(the `if v > cur` update is exactly `Nat.max`) over ALL successful
matches of the scan — the emitted tokens and the discarded whitespace
matches alike, the latter contributing their lexeme length, column,
category-name length (`"<space>"`) and symbol length (`"SPACE"`); only
the error token contributes nothing. -/
theorem claimC3 (src : List Char) :
    (∀ a v, bump a v = max a v)
    ∧ (analyze rules_arr src).largest_lexeme_size
        = bumpFold 0 ((allMatches (srcScan rules_arr (splitOnNl src) 0).1).map mLex)
    ∧ (analyze rules_arr src).largest_column_size
        = bumpFold 0 ((allMatches (srcScan rules_arr (splitOnNl src) 0).1).map mCol)
    ∧ (analyze rules_arr src).largest_type_size
        = bumpFold 0 ((allMatches (srcScan rules_arr (splitOnNl src) 0).1).map mType)
    ∧ (analyze rules_arr src).largest_group_size
        = bumpFold 0 ((allMatches (srcScan rules_arr (splitOnNl src) 0).1).map mGroup) := by
  refine ⟨?_, ?_⟩
  · intro a v
    unfold bump
    rcases Nat.lt_or_ge a v with h | h
    · rw [if_pos h, Nat.max_eq_right (Nat.le_of_lt h)]
    · rw [if_neg (Nat.not_lt.mpr h), Nat.max_eq_left h]
  · rw [analyze_spec]
    exact ⟨rfl, rfl, rfl, rfl⟩

/-- Claim C4: for the input `"123 @ 456"` the result is exactly the
integer-constant token `123` followed by an error token `@` at line 1
column 5 and nothing after it; and in general, whenever the output
token sequence contains an error token (rule absent), that token is
its final element and every token before it is a non-error token. -/
theorem claimC4 :
    ((analyze rules_arr ("123 @ 456".data)).tokens
      = [⟨"123".data, ⟨1, 1⟩, some intconstRule⟩, ⟨['@'], ⟨1, 5⟩, none⟩])
    ∧ ∀ (src : List Char) (pre post : List Token) (t : Token),
        (analyze rules_arr src).tokens = pre ++ t :: post → t.rule = none →
        post = [] ∧ ∀ u ∈ pre, u.rule ≠ none := by
  constructor
  · decide
  · intro src pre post t heq ht
    have htok := analyze_spec rules_arr src
    have hA : ∀ a ∈ srcTokens (srcScan rules_arr (splitOnNl src) 0).1, a.rule ≠ none := by
      intro a ha
      obtain ⟨r, hr, -⟩ := mem_srcTokens _ _ ha
      simp [hr]
    rcases he : (srcScan rules_arr (splitOnNl src) 0).2 with _ | err
    · exfalso
      have hmem : t ∈ (analyze rules_arr src).tokens := by
        rw [heq]
        exact List.mem_append_cons_self
      rw [htok] at hmem
      dsimp only at hmem
      rw [he] at hmem
      simp only [errTok2, List.append_nil] at hmem
      exact hA t hmem ht
    · have heq2 : pre ++ t :: post
          = srcTokens (srcScan rules_arr (splitOnNl src) 0).1
            ++ [⟨[err.1], ⟨err.2.1, err.2.2 + 1⟩, none⟩] := by
        rw [← heq, htok]
        dsimp only
        rw [he]
        rfl
      obtain ⟨hpost, hpre⟩ := last_only pre _ post t _ hA (fun hcon => hcon ht) heq2
      refine ⟨hpost, ?_⟩
      rw [hpre]
      exact hA

/-- Claim C4 (witness): the general part of the claim instantiated on
the input `"123 @ 456"` itself, with the split before its error
token. -/
theorem witnessC4 :
    ([] : List Token) = []
    ∧ ∀ u ∈ [(⟨"123".data, ⟨1, 1⟩, some intconstRule⟩ : Token)], u.rule ≠ none :=
  claimC4.2 ("123 @ 456".data) [⟨"123".data, ⟨1, 1⟩, some intconstRule⟩] []
    ⟨['@'], ⟨1, 5⟩, none⟩ (by decide) (by decide)

/-- Claim C5: for the input `"ifx"`, `analyze` returns two tokens: the
reserved-word token `if` (symbol `IF`, a special symbol) at column 1
followed by the identifier token `x` at column 3 — the reserved-word
rules precede the identifier rule and match without a word boundary, so
the input is not scanned as the single identifier `ifx`. -/
theorem claimC5 :
    (analyze rules_arr ("ifx".data)).tokens
      = [⟨"if".data, ⟨1, 1⟩, some ⟨"IF", "<special symbol>", Pat.lit "if".data⟩⟩,
         ⟨['x'], ⟨1, 3⟩, some identRule⟩] := by
  decide

/-- Claim C6: for every input on which no lexical error occurs, every
line of the split source is reconstructed exactly by concatenating, in
scan order, the lexemes of that line's matches (the emitted tokens
together with the discarded whitespace spans); and the output token
sequence consists exactly of the non-whitespace matches of each line in
order, positioned at that line's 1-based number. -/
theorem claimC6 (src : List Char)
    (h : ∀ t ∈ (analyze rules_arr src).tokens, t.rule ≠ none) :
    (∀ l ∈ splitOnNl src, ((lineMatches l).map (fun m => m.2.1)).flatten = l)
    ∧ (analyze rules_arr src).tokens
        = (splitOnNl src).enum.flatMap (fun p => trTokens (p.1 + 1) (lineMatches p.2)) := by
  have he := srcScan_err_none_of_no_err_token src h
  obtain ⟨h1, h2⟩ := srcScan_none rules_arr (splitOnNl src) 0 he
  constructor
  · intro l hl
    simpa [lineMatches] using
      lineScan_join rules_arr rules_arr_wf l.length 0 l (Nat.le_refl _) (h1 l hl)
  · rw [analyze_spec]
    dsimp only
    rw [he, h2]
    simp only [errTok2, List.append_nil, srcTokens, List.flatMap_map, List.enum]
    rfl

/-- Claim C6 (witness): the round trip on the error-free input
`"x1 := 10"`. -/
theorem witnessC6 :
    (∀ l ∈ splitOnNl ("x1 := 10".data), ((lineMatches l).map (fun m => m.2.1)).flatten = l)
    ∧ (analyze rules_arr ("x1 := 10".data)).tokens
        = (splitOnNl ("x1 := 10".data)).enum.flatMap
            (fun p => trTokens (p.1 + 1) (lineMatches p.2)) :=
  claimC6 ("x1 := 10".data) (by decide)

/-- Claim C7: no token of any output of `analyze` carries the SPACE
rule: whitespace matches advance the scan but are never appended to the
token table. -/
theorem claimC7 (src : List Char) (t : Token)
    (ht : t ∈ (analyze rules_arr src).tokens) : t.rule ≠ some spaceRule := by
  rw [analyze_spec] at ht
  dsimp only at ht
  rcases List.mem_append.mp ht with hA | hB
  · obtain ⟨r, hr, hsym⟩ := mem_srcTokens _ _ hA
    intro hcon
    rw [hcon] at hr
    have : r = spaceRule := by
      have := Option.some.inj hr
      exact this.symm
    rw [this] at hsym
    exact hsym rfl
  · rcases hsp : (srcScan rules_arr (splitOnNl src) 0).2 with _ | e
    · rw [hsp] at hB
      simp [errTok2] at hB
    · rw [hsp] at hB
      simp only [errTok2, List.mem_singleton] at hB
      subst hB
      simp

/-- Claim C7 (witness): the identifier token of the input `" x"` is in
the output and does not carry the SPACE rule. -/
theorem witnessC7 :
    (⟨['x'], ⟨1, 2⟩, some identRule⟩ : Token) ∈ (analyze rules_arr (" x".data)).tokens
    ∧ (⟨['x'], ⟨1, 2⟩, some identRule⟩ : Token).rule ≠ some spaceRule :=
  ⟨by decide, claimC7 (" x".data) _ (by decide)⟩

/-- Claim C8: for every input consisting solely of whitespace
characters, `analyze` returns an empty token sequence (and hence no
error token). -/
theorem claimC8 (src : List Char) (h : ∀ ch ∈ src, isSpaceCh ch = true) :
    (analyze rules_arr src).tokens = [] := by
  rw [analyze_spec]
  dsimp only
  obtain ⟨h1, h2⟩ := srcScan_space (splitOnNl src) 0
    (fun l hl ch hch => h ch (mem_splitOnNl src l hl ch hch))
  rw [h1, h2]
  rfl

/-- Claim C8 (witness): the whitespace input of a space, a tab, a
newline and a space yields no tokens. -/
theorem witnessC8 :
    (∀ ch ∈ (" \t\n ".data), isSpaceCh ch = true)
    ∧ (analyze rules_arr (" \t\n ".data)).tokens = [] :=
  ⟨by decide, claimC8 (" \t\n ".data) (by decide)⟩

/-- Claim C9: determinism/idempotence — the embedded `analyze` is a
pure function of the rule table and the source (the Python method reads
only its arguments and loop-local accumulators, and never mutates the
shared rule table), so two successive calls on the same arguments agree
on the whole output and in particular on the token sequence, the line
count and the four layout maxima. -/
theorem claimC9 (rules : List Rule) (source : List Char) :
    (analyzeTwice rules source).1 = (analyzeTwice rules source).2
    ∧ (analyzeTwice rules source).1.tokens = (analyzeTwice rules source).2.tokens
    ∧ (analyzeTwice rules source).1.line_count = (analyzeTwice rules source).2.line_count
    ∧ (analyzeTwice rules source).1.largest_lexeme_size
        = (analyzeTwice rules source).2.largest_lexeme_size
    ∧ (analyzeTwice rules source).1.largest_column_size
        = (analyzeTwice rules source).2.largest_column_size
    ∧ (analyzeTwice rules source).1.largest_type_size
        = (analyzeTwice rules source).2.largest_type_size
    ∧ (analyzeTwice rules source).1.largest_group_size
        = (analyzeTwice rules source).2.largest_group_size :=
  ⟨rfl, rfl, rfl, rfl, rfl, rfl, rfl⟩

/-- Claim C10: the error token never contributes to the layout maxima.
For the one-character input `"@"` the result is exactly one (error)
token while all four maxima are 0 — the largest-column maximum is
smaller than the error token's column 1; and for every input, each of
the four maxima is computed from the successful matches of the scan
alone (the fold below ranges over the match trace, in which the error
does not occur). -/
theorem claimC10 :
    ((analyze rules_arr ("@".data)).tokens = [⟨['@'], ⟨1, 1⟩, none⟩]
      ∧ (analyze rules_arr ("@".data)).largest_lexeme_size = 0
      ∧ (analyze rules_arr ("@".data)).largest_column_size = 0
      ∧ (analyze rules_arr ("@".data)).largest_type_size = 0
      ∧ (analyze rules_arr ("@".data)).largest_group_size = 0
      ∧ (analyze rules_arr ("@".data)).largest_column_size < 1)
    ∧ ∀ src : List Char,
        (analyze rules_arr src).largest_lexeme_size
          = bumpFold 0 ((allMatches (srcScan rules_arr (splitOnNl src) 0).1).map mLex)
        ∧ (analyze rules_arr src).largest_column_size
          = bumpFold 0 ((allMatches (srcScan rules_arr (splitOnNl src) 0).1).map mCol)
        ∧ (analyze rules_arr src).largest_type_size
          = bumpFold 0 ((allMatches (srcScan rules_arr (splitOnNl src) 0).1).map mType)
        ∧ (analyze rules_arr src).largest_group_size
          = bumpFold 0 ((allMatches (srcScan rules_arr (splitOnNl src) 0).1).map mGroup) := by
  constructor
  · decide
  · intro src
    rw [analyze_spec]
    exact ⟨rfl, rfl, rfl, rfl⟩

end MiniPascal
